import Mathlib

/-!
Shallow embedding of the `multa` spaced-repetition scheduler, translated
from `src/card.rs` and `src/session.rs`.

Modelling conventions:
* Machine integers (`u8`, `u32`, `u64`) are modelled as `Nat`.  The only
  subtraction in the code, `due - min_due` in `get_cards_to_save`, is
  modelled by truncated `Nat` subtraction; the safety theorem for that
  function shows `min_due ≤ due` for every retained card, so truncation
  never differs from the Rust semantics there.
* `SystemTime::now()` in `review` is an external input; `review` takes the
  observed wall-clock value as an explicit `now : Option Nat` argument.
* The `.unwrap()` of the iterator minimum in `get_cards_to_save` can panic
  (empty card list); the function is therefore modelled as returning an
  `Option`, with `none` standing for the panic.
* `HashMap<Factors, Card>` in `apply_changes` is modelled as a lookup
  function `Factors → Option Card`; `collect` on an iterator of pairs lets
  later bindings win, hence the `reverse.find?` in `buildMap`.
* Rust's stable `sort_by` with a comparator `cmp` produces the unique
  stable ordering in which `cmp a b ≠ Greater` for `a` left of `b`; it is
  modelled by Mathlib's stable `List.insertionSort` over that relation.
-/

/-- Drill-item identity (src/card.rs, `struct Factors(u8, u8)`). -/
structure Factors where
  fst : Nat
  snd : Nat
deriving DecidableEq, Repr

/-- Card lifecycle status (src/card.rs, `enum Status`). -/
inductive Status where
  | Unseen : Status
  | Learning (due : Nat) : Status
  | Learned (due : Nat) : Status
deriving DecidableEq, Repr

/-- Status.map_due (src/card.rs): apply `f` to the due payload, if any. -/
def Status.map_due (s : Status) (f : Nat → Nat) : Status :=
  match s with
  | Status.Unseen => Status.Unseen
  | Status.Learning due => Status.Learning (f due)
  | Status.Learned due => Status.Learned (f due)

/-- Review outcome (src/card.rs, `enum Rating`). -/
inductive Rating where
  | Good : Rating
  | Bad : Rating
deriving DecidableEq, Repr

/-- A drill card (src/card.rs, `struct Card`). -/
structure Card where
  value : Factors
  interval : Nat
  status : Status
  last_result : Option Rating
  last_seen : Option Nat
deriving DecidableEq, Repr

/-- Card::new (src/card.rs): a fresh card starts `Unseen` with interval 55. -/
def Card.new (x y : Nat) : Card :=
  { value := ⟨x, y⟩
    interval := 55
    status := Status.Unseen
    last_result := none
    last_seen := none }

/-- The fixed interval ladder (src/session.rs, `Intervals::INTERVALS`). -/
def Intervals.INTERVALS : List Nat := [2, 3, 5, 8, 13, 21, 34, 55]

/-- Intervals::first (src/session.rs): the smallest rung. -/
def Intervals.first : Nat := Intervals.INTERVALS.get ⟨0, by decide⟩

/-- Intervals::last (src/session.rs): the largest rung. -/
def Intervals.last : Nat :=
  Intervals.INTERVALS.get ⟨Intervals.INTERVALS.length - 1, by decide⟩

/-- Intervals::next (src/session.rs): the rung after `interval`, clamped to
the top; falls back to the first rung when `interval` is not on the ladder. -/
def Intervals.next (interval : Nat) : Nat :=
  let max_i := Intervals.INTERVALS.length - 1
  let curr_i := Intervals.INTERVALS.findIdx? (fun x => x == interval)
  match curr_i with
  | some i => Intervals.INTERVALS.getD (min (i + 1) max_i) 0
  | none => Intervals.INTERVALS.get ⟨0, by decide⟩

/-- Snapshot of a session taken before a review (src/session.rs). -/
structure Snapshot where
  cards : List Card
  tick : Nat
deriving DecidableEq, Repr

/-- The scheduler state (src/session.rs, `struct Session`). -/
structure Session where
  snapshot : Option Snapshot
  cards : List Card
  tick : Nat
deriving DecidableEq, Repr

/-- The pairwise comparator used by `Session::rebuild` (src/session.rs,
`sort_by` closure), written with the same arm structure as the Rust match. -/
def cmpCards (tick : Nat) (a b : Card) : Ordering :=
  match a.status, b.status with
  | Status.Learning x, Status.Learning y => compare x y
  | Status.Learning x, _ => if x ≤ tick then Ordering.lt else Ordering.gt
  | Status.Unseen, Status.Unseen => Ordering.eq
  | Status.Unseen, Status.Learning y =>
      if y ≤ tick then Ordering.gt else Ordering.lt
  | Status.Unseen, _ => Ordering.lt
  | Status.Learned x, Status.Learned y => compare x y
  | Status.Learned _, Status.Learning y =>
      if tick < y then Ordering.lt else Ordering.gt
  | Status.Learned _, _ => Ordering.gt

/-- The "not greater" relation induced by `cmpCards`: Rust's stable
`sort_by(cmp)` arranges the list so consecutive elements satisfy it. -/
def leCard (tick : Nat) (a b : Card) : Prop :=
  cmpCards tick a b ≠ Ordering.gt

instance (t : Nat) : DecidableRel (leCard t) := fun a b =>
  inferInstanceAs (Decidable (cmpCards t a b ≠ Ordering.gt))

/-- Session::rebuild (src/session.rs): stable full re-sort of the card
sequence by the four-class comparator at the current tick. -/
def Session.rebuild (s : Session) : Session :=
  { s with cards := List.insertionSort (leCard s.tick) s.cards }

/-- Session::peek (src/session.rs): the first card, if any. -/
def Session.peek (s : Session) : Option Card :=
  s.cards.head?

/-- Replace the first card whose identity is `v` (models
`iter_mut().find(|card| card.value == value)` followed by field writes). -/
def updateFirst (v : Factors) (f : Card → Card) : List Card → List Card
  | [] => []
  | c :: cs => if c.value = v then f c :: cs else c :: updateFirst v f cs

/-- Session::review (src/session.rs): snapshot, apply the transition to the
peeked card using the pre-increment tick, bump the tick, re-sort. -/
def Session.review (s : Session) (now : Option Nat) (rating : Rating) : Session :=
  let s1 : Session := { s with snapshot := some { cards := s.cards, tick := s.tick } }
  match s1.peek with
  | none => s1
  | some card =>
      let interval :=
        match rating with
        | Rating.Good => Intervals.next card.interval
        | Rating.Bad => Intervals.first
      let due := s1.tick + interval
      let upd : Card → Card := fun c =>
        { c with
            interval := interval
            last_result := some rating
            last_seen := now
            status :=
              if interval = Intervals.last then Status.Learned due
              else Status.Learning due }
      Session.rebuild
        { s1 with cards := updateFirst card.value upd s1.cards, tick := s1.tick + 1 }

/-- Session::rollback (src/session.rs): restore the snapshot, if present,
and discard it; otherwise do nothing. -/
def Session.rollback (s : Session) : Session :=
  match s.snapshot with
  | some snap => { snapshot := none, cards := snap.cards, tick := snap.tick }
  | none => s

/-- From<Vec<Card>> for Session (src/session.rs): wrap the cards at tick 0
and re-sort. -/
def Session.fromCards (cards : List Card) : Session :=
  Session.rebuild { snapshot := none, cards := cards, tick := 0 }

/-- The per-card contribution to the `min_due` scan of
Session::get_cards_to_save: the due for scheduled cards, the current tick
for `Unseen` (the `_ => self.tick` arm). -/
def dueContribution (tick : Nat) (card : Card) : Nat :=
  match card.status with
  | Status.Learning due => due
  | Status.Learned due => due
  | Status.Unseen => tick

/-- The `min_due` computation of Session::get_cards_to_save
(src/session.rs): minimum over all cards of the due (tick for `Unseen`),
then capped by the tick.  `none` models the `.unwrap()` panic on an empty
card list. -/
def Session.save_offset (s : Session) : Option Nat :=
  ((s.cards.map (dueContribution s.tick)).min?).map
    (fun m => min m s.tick)

/-- Session::get_cards_to_save (src/session.rs): drop `Unseen` cards and
re-base every retained due by `min_due`. -/
def Session.get_cards_to_save (s : Session) : Option (List Card) :=
  (s.save_offset).map (fun min_due =>
    (s.cards.filter (fun card => card.status != Status.Unseen)).map
      (fun card => { card with status := card.status.map_due (fun due => due - min_due) }))

/-- The `HashMap<Factors, Card>` built by `collect` in
Session::apply_changes: later pairs overwrite earlier ones. -/
def buildMap (changes : List Card) : Factors → Option Card :=
  fun k => changes.reverse.find? (fun c => c.value == k)

/-- HashMap::remove, on the lookup-function model of the map. -/
def removeKey (m : Factors → Option Card) (k : Factors) : Factors → Option Card :=
  fun x => if x = k then none else m x

/-- The overlay loop of Session::apply_changes: each generated card is
replaced wholesale by the persisted card with its identity, if the map
still holds one; the used entry is removed. -/
def overlayCards : List Card → (Factors → Option Card) → List Card
  | [], _ => []
  | c :: cs, m =>
      match m c.value with
      | some changed => changed :: overlayCards cs (removeKey m c.value)
      | none => c :: overlayCards cs m

/-- Session::apply_changes (src/session.rs): overlay the persisted cards
onto the generated universe, then re-sort. -/
def Session.apply_changes (s : Session) (changes : List Card) : Session :=
  Session.rebuild { s with cards := overlayCards s.cards (buildMap changes) }

/-- Whether a card is in the `Unseen` state. -/
def Card.isUnseen (c : Card) : Bool :=
  c.status == Status.Unseen

/-- Whether a card is in the `Learning` state. -/
def Card.isLearning (c : Card) : Bool :=
  match c.status with
  | Status.Learning _ => true
  | _ => false

/-- Whether a card is in the `Learned` state. -/
def Card.isLearned (c : Card) : Bool :=
  match c.status with
  | Status.Learned _ => true
  | _ => false

/-- The four presentation classes of the ordering policy, as ranks:
ready `Learning` cards (due ≤ tick) come first, then `Unseen`, then
`Learned`, then not-yet-due `Learning` cards. -/
def classRank (tick : Nat) (c : Card) : Nat :=
  match c.status with
  | Status.Learning due => if due ≤ tick then 0 else 3
  | Status.Unseen => 1
  | Status.Learned _ => 2

/-- The due payload of a scheduled card (0 for `Unseen`, which carries no
schedule). -/
def dueValue (c : Card) : Nat :=
  match c.status with
  | Status.Learning due => due
  | Status.Learned due => due
  | Status.Unseen => 0

/-- The ordering-policy invariant over a card sequence: class ranks are
non-decreasing, `Learning` cards are mutually ordered by due ascending,
and `Learned` cards are mutually ordered by due ascending. -/
def FourClassOrdered (tick : Nat) (l : List Card) : Prop :=
  l.Pairwise (fun a b => classRank tick a ≤ classRank tick b) ∧
  (l.filter Card.isLearning).Pairwise (fun a b => dueValue a ≤ dueValue b) ∧
  (l.filter Card.isLearned).Pairwise (fun a b => dueValue a ≤ dueValue b)

instance (tick : Nat) (l : List Card) : Decidable (FourClassOrdered tick l) := by
  unfold FourClassOrdered
  infer_instance

/-- The field overwrite `review` performs on the located card, with `tick`
the pre-increment clock value. -/
def reviewUpd (tick : Nat) (now : Option Nat) (rating : Rating) (c : Card) : Card :=
  let interval :=
    match rating with
    | Rating.Good => Intervals.next c.interval
    | Rating.Bad => Intervals.first
  { c with
      interval := interval
      last_result := some rating
      last_seen := now
      status :=
        if interval = Intervals.last then Status.Learned (tick + interval)
        else Status.Learning (tick + interval) }

/-- The card helper of the repository's unit tests (src/session.rs,
`mod tests::a_card`): identity (id, id), interval 2. -/
def a_card (id : Nat) (st : Status) : Card :=
  { value := ⟨id, id⟩, interval := 2, status := st, last_result := none, last_seen := none }

/-- Concrete sample card vector for closed instantiations below. -/
def sampleCards : List Card :=
  [a_card 3 Status.Unseen, a_card 1 (Status.Learning 0)]

/-- Concrete sample session for closed instantiations below. -/
def sampleSession : Session :=
  { snapshot := none,
    cards := [a_card 1 (Status.Learning 0), a_card 3 Status.Unseen],
    tick := 0 }

/-- Concrete sample persisted-card list for closed instantiations below. -/
def sampleChanges : List Card :=
  [a_card 2 (Status.Learning 1)]

/-- Concrete session used to instantiate the save/load round trip: one
scheduled card and one Unseen card at tick 2. -/
def rtSession : Session :=
  { snapshot := none,
    cards := [a_card 1 (Status.Learning 3), a_card 2 Status.Unseen],
    tick := 2 }

/-- Concrete freshly generated universe used to instantiate the save/load
round trip. -/
def rtFresh : List Card :=
  [Card.new 2 2, Card.new 1 1]

/-! Lemmas about the comparator and the stable sort. -/

theorem leCard_iff (t : Nat) (a b : Card) :
    leCard t a b ↔
      (classRank t a < classRank t b ∨
        (classRank t a = classRank t b ∧ dueValue a ≤ dueValue b)) := by
  rcases ha : a.status with _ | x | x <;> rcases hb : b.status with _ | y | y <;>
    simp only [leCard, cmpCards, classRank, dueValue, ha, hb, ne_eq,
      Nat.compare_eq_gt, not_lt] <;>
    (try split_ifs) <;> (try simp) <;> omega

theorem leCard_total (t : Nat) (a b : Card) : leCard t a b ∨ leCard t b a := by
  rw [leCard_iff, leCard_iff]
  omega

theorem leCard_trans (t : Nat) (a b c : Card) :
    leCard t a b → leCard t b c → leCard t a c := by
  rw [leCard_iff, leCard_iff, leCard_iff]
  omega

theorem rebuild_tick (s : Session) : (Session.rebuild s).tick = s.tick := rfl

theorem rebuild_snapshot (s : Session) :
    (Session.rebuild s).snapshot = s.snapshot := rfl

theorem rebuild_perm (s : Session) : ((Session.rebuild s).cards).Perm s.cards :=
  List.perm_insertionSort _ _

theorem rebuild_pairwise (s : Session) :
    ((Session.rebuild s).cards).Pairwise (leCard s.tick) := by
  haveI : IsTotal Card (leCard s.tick) := ⟨leCard_total s.tick⟩
  haveI : IsTrans Card (leCard s.tick) := ⟨leCard_trans s.tick⟩
  exact List.sorted_insertionSort (leCard s.tick) s.cards

theorem mem_rebuild {s : Session} {c : Card} :
    c ∈ (Session.rebuild s).cards ↔ c ∈ s.cards :=
  List.mem_insertionSort _

/-- Stability of `orderedInsert` through a filter, non-member case: inserting
an element the filter rejects does not change the filtered list. -/
theorem filter_orderedInsert_neg {α : Type} (r : α → α → Prop) [DecidableRel r]
    (p : α → Bool) (a : α) (ha : p a = false) :
    ∀ l : List α, (List.orderedInsert r a l).filter p = l.filter p := by
  intro l
  induction l with
  | nil => simp [List.orderedInsert, ha]
  | cons b l ih =>
      rw [List.orderedInsert]
      by_cases hr : r a b
      · rw [if_pos hr, List.filter_cons, ha]
        simp
      · rw [if_neg hr, List.filter_cons, List.filter_cons]
        cases hb : p b <;> simp [ih]

/-- Stability of `orderedInsert` through a filter, member case: if the
inserted element is accepted by the filter and is `r`-below every accepted
element, it lands at the front of the filtered list. -/
theorem filter_orderedInsert_pos {α : Type} (r : α → α → Prop) [DecidableRel r]
    (p : α → Bool) (a : α) (ha : p a = true)
    (hall : ∀ b, p b = true → r a b) :
    ∀ l : List α, (List.orderedInsert r a l).filter p = a :: l.filter p := by
  intro l
  induction l with
  | nil => simp [List.orderedInsert, ha]
  | cons b l ih =>
      rw [List.orderedInsert]
      by_cases hr : r a b
      · rw [if_pos hr, List.filter_cons, ha]
        simp
      · have hb : p b = false := by
          cases hpb : p b with
          | false => rfl
          | true => exact absurd (hall b hpb) hr
        rw [if_neg hr, List.filter_cons, hb]
        simp [ih, List.filter_cons, hb]

/-- Stability of insertion sort through a filter whose accepted elements are
mutually `r`-equivalent: the filtered list is unchanged by sorting. -/
theorem filter_insertionSort {α : Type} (r : α → α → Prop) [DecidableRel r]
    (p : α → Bool) (hmut : ∀ a b, p a = true → p b = true → r a b) :
    ∀ l : List α, (List.insertionSort r l).filter p = l.filter p := by
  intro l
  induction l with
  | nil => rfl
  | cons a l ih =>
      rw [List.insertionSort]
      cases ha : p a with
      | false =>
          rw [filter_orderedInsert_neg r p a ha, ih, List.filter_cons, ha]
          simp
      | true =>
          rw [filter_orderedInsert_pos r p a ha (fun b hb => hmut a b ha hb), ih,
            List.filter_cons, ha]
          simp

theorem leCard_of_unseen {t : Nat} {a b : Card}
    (haU : a.isUnseen = true) (hbU : b.isUnseen = true) : leCard t a b := by
  have ha : a.status = Status.Unseen := by
    simpa [Card.isUnseen] using haU
  have hb : b.status = Status.Unseen := by
    simpa [Card.isUnseen] using hbU
  simp [leCard, cmpCards, ha, hb]

/-- The Unseen cards of a rebuilt session are exactly the Unseen cards of
the unsorted sequence, in the same relative order (sort stability). -/
theorem rebuild_filter_unseen (s : Session) :
    ((Session.rebuild s).cards).filter Card.isUnseen =
      s.cards.filter Card.isUnseen :=
  filter_insertionSort (leCard s.tick) Card.isUnseen
    (fun _ _ ha hb => leCard_of_unseen ha hb) s.cards

/-! Structure lemmas about `review`. -/

theorem review_cons (snap : Option Snapshot) (c : Card) (tl : List Card)
    (tick : Nat) (now : Option Nat) (r : Rating) :
    Session.review ⟨snap, c :: tl, tick⟩ now r =
      Session.rebuild
        { snapshot := some { cards := c :: tl, tick := tick },
          cards := reviewUpd tick now r c :: tl,
          tick := tick + 1 } := by
  show Session.rebuild _ = _
  rw [updateFirst, if_pos rfl]
  rfl

theorem review_of_cards_eq {s : Session} {c : Card} {tl : List Card}
    (hc : s.cards = c :: tl) (now : Option Nat) (r : Rating) :
    s.review now r =
      Session.rebuild
        { snapshot := some { cards := s.cards, tick := s.tick },
          cards := reviewUpd s.tick now r c :: tl,
          tick := s.tick + 1 } := by
  obtain ⟨snap, cards, tick⟩ := s
  dsimp at hc
  subst hc
  exact review_cons snap c tl tick now r

theorem review_snapshot (s : Session) (now : Option Nat) (r : Rating) :
    (s.review now r).snapshot = some { cards := s.cards, tick := s.tick } := by
  cases hc : s.cards with
  | nil =>
      obtain ⟨snap, cards, tick⟩ := s
      dsimp at hc
      subst hc
      rfl
  | cons c tl =>
      rw [review_of_cards_eq hc now r, rebuild_snapshot, hc]

theorem review_tick_of_cons {s : Session} {c : Card} {tl : List Card}
    (hc : s.cards = c :: tl) (now : Option Nat) (r : Rating) :
    (s.review now r).tick = s.tick + 1 := by
  rw [review_of_cards_eq hc now r]
  rfl

theorem review_cards_of_cons {s : Session} {c : Card} {tl : List Card}
    (hc : s.cards = c :: tl) (now : Option Nat) (r : Rating) :
    (s.review now r).cards =
      List.insertionSort (leCard (s.tick + 1)) (reviewUpd s.tick now r c :: tl) := by
  rw [review_of_cards_eq hc now r]
  rfl

theorem reviewUpd_mem {s : Session} {c : Card} {tl : List Card}
    (hc : s.cards = c :: tl) (now : Option Nat) (r : Rating) :
    reviewUpd s.tick now r c ∈ (s.review now r).cards := by
  rw [review_cards_of_cons hc now r]
  exact (List.mem_insertionSort _).mpr (List.mem_cons_self _ _)

/-! From the pairwise sort order to the four-class invariant. -/

theorem leCard_rank {t : Nat} {a b : Card} (h : leCard t a b) :
    classRank t a ≤ classRank t b := by
  rw [leCard_iff] at h
  omega

theorem leCard_due_of_learning {t : Nat} {a b : Card}
    (hla : a.isLearning = true) (hlb : b.isLearning = true)
    (h : leCard t a b) : dueValue a ≤ dueValue b := by
  rcases hsa : a.status with _ | x | x <;> rcases hsb : b.status with _ | y | y <;>
    simp [Card.isLearning, hsa, hsb] at hla hlb
  rw [leCard_iff] at h
  simp only [classRank, dueValue, hsa, hsb] at h ⊢
  split_ifs at h <;> omega

theorem leCard_due_of_learned {t : Nat} {a b : Card}
    (hla : a.isLearned = true) (hlb : b.isLearned = true)
    (h : leCard t a b) : dueValue a ≤ dueValue b := by
  rcases hsa : a.status with _ | x | x <;> rcases hsb : b.status with _ | y | y <;>
    simp [Card.isLearned, hsa, hsb] at hla hlb
  rw [leCard_iff] at h
  simp only [classRank, dueValue, hsa, hsb] at h ⊢
  omega

theorem fourClass_of_pairwise {t : Nat} {l : List Card}
    (h : l.Pairwise (leCard t)) : FourClassOrdered t l := by
  refine ⟨h.imp (fun hab => leCard_rank hab), ?_, ?_⟩
  · exact (h.filter Card.isLearning).imp_of_mem
      (fun ha hb hab =>
        leCard_due_of_learning (List.of_mem_filter ha) (List.of_mem_filter hb) hab)
  · exact (h.filter Card.isLearned).imp_of_mem
      (fun ha hb hab =>
        leCard_due_of_learned (List.of_mem_filter ha) (List.of_mem_filter hb) hab)

theorem rebuild_fourClass (s : Session) :
    FourClassOrdered s.tick (Session.rebuild s).cards :=
  fourClass_of_pairwise (rebuild_pairwise s)

theorem review_nil {s : Session} (hc : s.cards = []) (now : Option Nat) (r : Rating) :
    s.review now r = { s with snapshot := some { cards := s.cards, tick := s.tick } } := by
  obtain ⟨snap, cards, tick⟩ := s
  dsimp at hc
  subst hc
  rfl

theorem rollback_review_eq (s : Session) (now : Option Nat) (r : Rating) :
    (s.review now r).rollback =
      { snapshot := none, cards := s.cards, tick := s.tick } := by
  unfold Session.rollback
  rw [review_snapshot s now r]

theorem reviewUpd_not_unseen (t : Nat) (now : Option Nat) (r : Rating) (c : Card) :
    (reviewUpd t now r c).isUnseen = false := by
  unfold reviewUpd Card.isUnseen
  dsimp only
  split_ifs <;> simp

/-- C7: for ladder inputs, `next` returns the immediately following rung,
clamped to the top (`next(last()) = last()`); for any input not on the
ladder, `next` falls back to `first() = 2`. -/
theorem intervals_next_spec :
    (∀ i : Fin Intervals.INTERVALS.length,
        Intervals.next (Intervals.INTERVALS.get i) =
          Intervals.INTERVALS.get
            ⟨min (i.1 + 1) (Intervals.INTERVALS.length - 1),
              Nat.lt_of_le_of_lt (Nat.min_le_right _ _) (by decide)⟩) ∧
    Intervals.next Intervals.last = Intervals.last ∧
    ∀ n : Nat, n ∉ Intervals.INTERVALS → Intervals.next n = Intervals.first := by
  refine ⟨by decide, by decide, fun n hn => ?_⟩
  have hidx : Intervals.INTERVALS.findIdx? (fun x => x == n) = none := by
    rw [List.findIdx?_eq_none_iff]
    intro x hx
    exact beq_eq_false_iff_ne.mpr (fun e => hn (e ▸ hx))
  unfold Intervals.next
  rw [hidx]
  rfl

/-- C7 witness: 4 is not a rung, so `next 4` recovers to `first`. -/
theorem intervals_next_spec_witness : Intervals.next 4 = Intervals.first :=
  intervals_next_spec.2.2 4 (by decide)

/-- C6 counterexample: on a session whose card list is empty, `review`
takes the no-card branch and leaves the tick unchanged, so the claim as
stated (over every session state) fails. -/
theorem review_increments_tick_false :
    (Session.review { snapshot := none, cards := [], tick := 0 } none
        Rating.Good).tick ≠ 0 + 1 := by
  decide

/-- C6 (amended): for every session whose card list is non-empty, `review`
increments the tick by exactly 1. -/
theorem review_increments_tick (s : Session) (now : Option Nat) (r : Rating)
    (h : s.cards ≠ []) : (s.review now r).tick = s.tick + 1 := by
  cases hc : s.cards with
  | nil => exact absurd hc h
  | cons c tl => exact review_tick_of_cons hc now r

/-- C6 witness at a one-card session. -/
theorem review_increments_tick_witness :
    (Session.review { snapshot := none, cards := [a_card 2 Status.Unseen], tick := 0 }
        none Rating.Good).tick = 0 + 1 :=
  review_increments_tick
    { snapshot := none, cards := [a_card 2 Status.Unseen], tick := 0 }
    none Rating.Good (by decide)

/-- C5: rollback right after review restores the exact prior cards sequence
and tick and discards the snapshot; a second consecutive rollback is a
no-op. -/
theorem review_rollback_restores (s : Session) (now : Option Nat) (r : Rating)
    (h : s.cards ≠ []) :
    ((s.review now r).rollback).cards = s.cards ∧
    ((s.review now r).rollback).tick = s.tick ∧
    ((s.review now r).rollback).snapshot = none ∧
    ((s.review now r).rollback).rollback = (s.review now r).rollback := by
  rw [rollback_review_eq s now r]
  exact ⟨rfl, rfl, rfl, rfl⟩

/-- C5 witness at a one-card session. -/
theorem review_rollback_restores_witness :
    ((Session.review { snapshot := none, cards := [a_card 2 Status.Unseen], tick := 0 }
          none Rating.Bad).rollback).cards = [a_card 2 Status.Unseen] ∧
    ((Session.review { snapshot := none, cards := [a_card 2 Status.Unseen], tick := 0 }
          none Rating.Bad).rollback).tick = 0 ∧
    ((Session.review { snapshot := none, cards := [a_card 2 Status.Unseen], tick := 0 }
          none Rating.Bad).rollback).snapshot = none ∧
    ((Session.review { snapshot := none, cards := [a_card 2 Status.Unseen], tick := 0 }
          none Rating.Bad).rollback).rollback =
      (Session.review { snapshot := none, cards := [a_card 2 Status.Unseen], tick := 0 }
          none Rating.Bad).rollback :=
  review_rollback_restores
    { snapshot := none, cards := [a_card 2 Status.Unseen], tick := 0 }
    none Rating.Bad (by decide)

/-- C1 counterexample: reviewing the single fresh card with `Bad` at tick 0
yields status `Learning 2`, not the claimed `Learning (0 + 1 + first())`. -/
theorem review_bad_due_false :
    ((Session.fromCards [Card.new 2 3]).review none Rating.Bad).cards.map
        Card.status ≠ [Status.Learning (0 + 1 + Intervals.first)] := by
  decide

/-- C1 (amended): `review(Bad)` sets the peeked card to
interval = first() = 2 and status = Learning(t + first()), where t is the
tick before the call — the code adds the interval to the pre-increment
tick without the extra +1 the spec states. -/
theorem review_bad_transition (s : Session) (now : Option Nat) (c : Card)
    (h : s.peek = some c) :
    ∃ c' ∈ (s.review now Rating.Bad).cards,
      c'.value = c.value ∧ c'.interval = Intervals.first ∧
      c'.status = Status.Learning (s.tick + Intervals.first) := by
  have h' : s.cards.head? = some c := h
  obtain ⟨tl, hc⟩ := List.head?_eq_some_iff.mp h'
  refine ⟨reviewUpd s.tick now Rating.Bad c,
    reviewUpd_mem hc now Rating.Bad, rfl, rfl, ?_⟩
  show (if Intervals.first = Intervals.last
        then Status.Learned (s.tick + Intervals.first)
        else Status.Learning (s.tick + Intervals.first)) = _
  rw [if_neg (by decide)]

/-- C1 witness at a one-card session. -/
theorem review_bad_transition_witness :
    ∃ c' ∈ (Session.review { snapshot := none, cards := [Card.new 2 3], tick := 0 }
        none Rating.Bad).cards,
      c'.value = (Card.new 2 3).value ∧ c'.interval = Intervals.first ∧
      c'.status = Status.Learning (0 + Intervals.first) :=
  review_bad_transition { snapshot := none, cards := [Card.new 2 3], tick := 0 }
    none (Card.new 2 3) rfl

/-- C2 counterexample: reviewing an interval-2 card with `Good` at tick 0
yields `Learning 3` (candidate 3 added to the pre-increment tick), not the
claimed `Learning (0 + 1 + next(2))`. -/
theorem review_good_due_false :
    ((Session.fromCards [a_card 2 Status.Unseen]).review none Rating.Good).cards.map
        Card.status ≠ [Status.Learning (0 + 1 + Intervals.next 2)] := by
  decide

/-- C2 (amended): `review(Good)` sets the peeked card to
interval = next(old interval) and due = t + next(old interval), with
t the pre-increment tick (no extra +1), the status being Learned at the top
rung and Learning otherwise. -/
theorem review_good_transition (s : Session) (now : Option Nat) (c : Card)
    (h : s.peek = some c) :
    ∃ c' ∈ (s.review now Rating.Good).cards,
      c'.value = c.value ∧ c'.interval = Intervals.next c.interval ∧
      c'.status =
        (if Intervals.next c.interval = Intervals.last
          then Status.Learned (s.tick + Intervals.next c.interval)
          else Status.Learning (s.tick + Intervals.next c.interval)) := by
  have h' : s.cards.head? = some c := h
  obtain ⟨tl, hc⟩ := List.head?_eq_some_iff.mp h'
  exact ⟨reviewUpd s.tick now Rating.Good c,
    reviewUpd_mem hc now Rating.Good, rfl, rfl, rfl⟩

/-- C2 witness at a one-card session. -/
theorem review_good_transition_witness :
    ∃ c' ∈ (Session.review
        { snapshot := none, cards := [a_card 2 Status.Unseen], tick := 0 }
        none Rating.Good).cards,
      c'.value = (a_card 2 Status.Unseen).value ∧
      c'.interval = Intervals.next (a_card 2 Status.Unseen).interval ∧
      c'.status =
        (if Intervals.next (a_card 2 Status.Unseen).interval = Intervals.last
          then Status.Learned (0 + Intervals.next (a_card 2 Status.Unseen).interval)
          else Status.Learning (0 + Intervals.next (a_card 2 Status.Unseen).interval)) :=
  review_good_transition
    { snapshot := none, cards := [a_card 2 Status.Unseen], tick := 0 }
    none (a_card 2 Status.Unseen) rfl

/-- C9: Card::new initializes the interval to 55, the top rung, so the very
first Good review of a fresh card computes next(55) = 55 = last() and jumps
straight to Learned(t + 55), never passing through Learning; a Bad review
is what sends it to Learning. -/
theorem card_new_learned_shortcut (x y : Nat) (s : Session) (now : Option Nat)
    (h : s.peek = some (Card.new x y)) :
    (Card.new x y).interval = 55 ∧ Intervals.last = 55 ∧ Intervals.next 55 = 55 ∧
    (∃ c' ∈ (s.review now Rating.Good).cards,
        c'.value = Factors.mk x y ∧ c'.status = Status.Learned (s.tick + 55)) ∧
    (∃ c' ∈ (s.review now Rating.Bad).cards,
        c'.value = Factors.mk x y ∧
        c'.status = Status.Learning (s.tick + Intervals.first)) := by
  have h' : s.cards.head? = some (Card.new x y) := h
  obtain ⟨tl, hc⟩ := List.head?_eq_some_iff.mp h'
  refine ⟨rfl, by decide, by decide,
    ⟨reviewUpd s.tick now Rating.Good (Card.new x y),
      reviewUpd_mem hc now Rating.Good, rfl, rfl⟩,
    ⟨reviewUpd s.tick now Rating.Bad (Card.new x y),
      reviewUpd_mem hc now Rating.Bad, rfl, ?_⟩⟩
  show (if Intervals.first = Intervals.last
        then Status.Learned (s.tick + Intervals.first)
        else Status.Learning (s.tick + Intervals.first)) = _
  rw [if_neg (by decide)]

/-- C9 witness at a one-card session. -/
theorem card_new_learned_shortcut_witness :
    (Card.new 2 3).interval = 55 ∧ Intervals.last = 55 ∧ Intervals.next 55 = 55 ∧
    (∃ c' ∈ (Session.review { snapshot := none, cards := [Card.new 2 3], tick := 0 }
        none Rating.Good).cards,
        c'.value = Factors.mk 2 3 ∧ c'.status = Status.Learned (0 + 55)) ∧
    (∃ c' ∈ (Session.review { snapshot := none, cards := [Card.new 2 3], tick := 0 }
        none Rating.Bad).cards,
        c'.value = Factors.mk 2 3 ∧
        c'.status = Status.Learning (0 + Intervals.first)) :=
  card_new_learned_shortcut 2 3
    { snapshot := none, cards := [Card.new 2 3], tick := 0 } none rfl

/-- C8: `review` rewrites exactly the record of the card peeked at the start
of the call — its status and interval are set together, with the new due
computed from the new interval — and every other card keeps all its fields;
the result is a permutation of the updated head with the untouched tail. -/
theorem review_frame (s : Session) (now : Option Nat) (r : Rating) (c : Card)
    (h : s.peek = some c) :
    ∃ c', ((s.review now r).cards).Perm (c' :: s.cards.tail) ∧
      c'.value = c.value ∧
      ∃ due : Nat, (c'.status = Status.Learning due ∨ c'.status = Status.Learned due) ∧
        due = s.tick + c'.interval := by
  have h' : s.cards.head? = some c := h
  obtain ⟨tl, hc⟩ := List.head?_eq_some_iff.mp h'
  refine ⟨reviewUpd s.tick now r c, ?_, rfl, ?_⟩
  · rw [review_cards_of_cons hc now r]
    have htl : s.cards.tail = tl := by rw [hc]; rfl
    rw [htl]
    exact List.perm_insertionSort _ _
  · refine ⟨s.tick + (reviewUpd s.tick now r c).interval, ?_, rfl⟩
    unfold reviewUpd
    dsimp only
    split_ifs with hif
    · exact Or.inr rfl
    · exact Or.inl rfl

/-- C8 witness at a one-card session. -/
theorem review_frame_witness :
    ∃ c', ((Session.review { snapshot := none, cards := [a_card 2 Status.Unseen], tick := 0 }
        none Rating.Good).cards).Perm
        (c' :: ({ snapshot := none, cards := [a_card 2 Status.Unseen], tick := 0 } : Session).cards.tail) ∧
      c'.value = (a_card 2 Status.Unseen).value ∧
      ∃ due : Nat, (c'.status = Status.Learning due ∨ c'.status = Status.Learned due) ∧
        due = 0 + c'.interval :=
  review_frame { snapshot := none, cards := [a_card 2 Status.Unseen], tick := 0 }
    none Rating.Good (a_card 2 Status.Unseen) rfl

/-! Lemmas about the persisted-card map and the overlay loop. -/

theorem buildMap_mem {changes : List Card} {k : Factors} {c : Card}
    (h : buildMap changes k = some c) : c ∈ changes :=
  List.mem_reverse.mp (List.mem_of_find?_eq_some h)

theorem buildMap_value {changes : List Card} {k : Factors} {c : Card}
    (h : buildMap changes k = some c) : c.value = k := by
  have := List.find?_some h
  exact beq_iff_eq.mp this

theorem removeKey_some {m : Factors → Option Card} {k x : Factors} {c : Card}
    (h : removeKey m k x = some c) : m x = some c := by
  unfold removeKey at h
  split_ifs at h
  exact h

/-- The Unseen cards surviving the overlay are a subsequence of the input's
Unseen cards, provided the map only holds non-Unseen cards. -/
theorem overlay_filter_unseen_sublist :
    ∀ (l : List Card) (m : Factors → Option Card),
      (∀ k c, m k = some c → c.isUnseen = false) →
      ((overlayCards l m).filter Card.isUnseen).Sublist (l.filter Card.isUnseen)
  | [], _, _ => by simp [overlayCards]
  | c :: cs, m, hm => by
      rw [overlayCards]
      cases hmc : m c.value with
      | some changed =>
          rw [List.filter_cons, List.filter_cons, hm c.value changed hmc]
          have ih := overlay_filter_unseen_sublist cs (removeKey m c.value)
            (fun k d hd => hm k d (removeKey_some hd))
          cases hcu : c.isUnseen with
          | false => simpa using ih
          | true => simpa using ih.trans (List.sublist_cons_self c _)
      | none =>
          rw [List.filter_cons, List.filter_cons]
          have ih := overlay_filter_unseen_sublist cs m hm
          cases hcu : c.isUnseen with
          | false => simpa using ih
          | true => simpa using ih.cons₂ c

/-- C4: after every mutation — construction from a card vector, review,
apply_changes (with persisted, hence non-Unseen, changes), and rollback of
a review — the card sequence is ordered in the four classes (ready
Learning, Unseen, Learned, not-yet-due Learning), Learning cards mutually
by due ascending and Learned cards mutually by due ascending, while the
Unseen cards keep their prior relative order. -/
theorem four_class_order_invariant
    (l : List Card) (s : Session) (changes : List Card) (now : Option Nat)
    (r : Rating)
    (hs : FourClassOrdered s.tick s.cards)
    (hch : ∀ c ∈ changes, c.status ≠ Status.Unseen) :
    (FourClassOrdered 0 (Session.fromCards l).cards ∧
      (Session.fromCards l).cards.filter Card.isUnseen = l.filter Card.isUnseen) ∧
    (FourClassOrdered (s.review now r).tick (s.review now r).cards ∧
      ((s.review now r).cards.filter Card.isUnseen).Sublist
        (s.cards.filter Card.isUnseen)) ∧
    (FourClassOrdered s.tick (s.apply_changes changes).cards ∧
      ((s.apply_changes changes).cards.filter Card.isUnseen).Sublist
        (s.cards.filter Card.isUnseen)) ∧
    (((s.review now r).rollback).cards = s.cards ∧
      ((s.review now r).rollback).tick = s.tick ∧
      FourClassOrdered ((s.review now r).rollback).tick
        ((s.review now r).rollback).cards) := by
  refine ⟨⟨rebuild_fourClass { snapshot := none, cards := l, tick := 0 },
      rebuild_filter_unseen { snapshot := none, cards := l, tick := 0 }⟩,
    ?_, ?_, ?_⟩
  · cases hc : s.cards with
    | nil =>
        rw [review_nil hc now r]
        exact ⟨hs, by rw [hc]⟩
    | cons c tl =>
        rw [review_of_cards_eq hc now r]
        constructor
        · exact rebuild_fourClass
            { snapshot := some { cards := s.cards, tick := s.tick },
              cards := reviewUpd s.tick now r c :: tl, tick := s.tick + 1 }
        · rw [rebuild_filter_unseen
            { snapshot := some { cards := s.cards, tick := s.tick },
              cards := reviewUpd s.tick now r c :: tl, tick := s.tick + 1 }]
          show ((reviewUpd s.tick now r c :: tl).filter Card.isUnseen).Sublist _
          rw [List.filter_cons, reviewUpd_not_unseen s.tick now r c]
          simp only [Bool.false_eq_true, if_false]
          exact (List.sublist_cons_self c tl).filter Card.isUnseen
  · constructor
    · exact rebuild_fourClass
        { s with cards := overlayCards s.cards (buildMap changes) }
    · show (((Session.rebuild
          { s with cards := overlayCards s.cards (buildMap changes) }).cards).filter
            Card.isUnseen).Sublist _
      rw [rebuild_filter_unseen
        { s with cards := overlayCards s.cards (buildMap changes) }]
      exact overlay_filter_unseen_sublist s.cards (buildMap changes)
        (fun k c hkc => by
          have hmem := buildMap_mem hkc
          have := hch c hmem
          unfold Card.isUnseen
          exact beq_eq_false_iff_ne.mpr this)
  · rw [rollback_review_eq s now r]
    exact ⟨rfl, rfl, hs⟩

/-- C4 witness at concrete inputs exercising all four mutation shapes. -/
theorem four_class_order_invariant_witness :
    (FourClassOrdered 0 (Session.fromCards sampleCards).cards ∧
      (Session.fromCards sampleCards).cards.filter Card.isUnseen =
        sampleCards.filter Card.isUnseen) ∧
    (FourClassOrdered (sampleSession.review none Rating.Good).tick
        (sampleSession.review none Rating.Good).cards ∧
      ((sampleSession.review none Rating.Good).cards.filter Card.isUnseen).Sublist
        (sampleSession.cards.filter Card.isUnseen)) ∧
    (FourClassOrdered sampleSession.tick
        (sampleSession.apply_changes sampleChanges).cards ∧
      ((sampleSession.apply_changes sampleChanges).cards.filter Card.isUnseen).Sublist
        (sampleSession.cards.filter Card.isUnseen)) ∧
    (((sampleSession.review none Rating.Good).rollback).cards = sampleSession.cards ∧
      ((sampleSession.review none Rating.Good).rollback).tick = sampleSession.tick ∧
      FourClassOrdered ((sampleSession.review none Rating.Good).rollback).tick
        ((sampleSession.review none Rating.Good).rollback).cards) :=
  four_class_order_invariant sampleCards sampleSession sampleChanges none
    Rating.Good (by decide) (by decide)

theorem dueContribution_of_scheduled {t : Nat} {c : Card}
    (h : c.status ≠ Status.Unseen) : dueContribution t c = dueValue c := by
  rcases hc : c.status with _ | d | d
  · exact absurd hc h
  · simp [dueContribution, dueValue, hc]
  · simp [dueContribution, dueValue, hc]

/-- C10: `get_cards_to_save` panics (modelled as `none`) exactly on the
empty card list; on a non-empty list it is total and the computed offset is
a lower bound of every scheduled due, so the `due - offset` subtraction
never underflows. -/
theorem get_cards_to_save_safety (s : Session) :
    (s.cards = [] → s.get_cards_to_save = none) ∧
    (s.cards ≠ [] →
      ∃ off saved, s.save_offset = some off ∧ s.get_cards_to_save = some saved ∧
        ∀ c ∈ s.cards, ∀ d : Nat,
          (c.status = Status.Learning d ∨ c.status = Status.Learned d) →
          off ≤ d) := by
  constructor
  · intro hnil
    unfold Session.get_cards_to_save Session.save_offset
    rw [hnil]
    rfl
  · intro hne
    have hminne : (s.cards.map (dueContribution s.tick)).min? ≠ none :=
      fun hcontra =>
        hne (by simpa [List.map_eq_nil_iff] using List.min?_eq_none_iff.mp hcontra)
    obtain ⟨m, hm⟩ := Option.ne_none_iff_exists'.mp hminne
    have hoff : s.save_offset = some (min m s.tick) := by
      unfold Session.save_offset
      rw [hm]
      rfl
    refine ⟨min m s.tick,
      (s.cards.filter (fun card => card.status != Status.Unseen)).map
        (fun card =>
          { card with
              status := card.status.map_due (fun due => due - min m s.tick) }),
      hoff, ?_, ?_⟩
    · unfold Session.get_cards_to_save
      rw [hoff]
      rfl
    · intro c hc d hd
      have hmemc : dueContribution s.tick c ∈ s.cards.map (dueContribution s.tick) :=
        List.mem_map_of_mem _ hc
      have hle := (List.min?_eq_some_iff'.mp hm).2 _ hmemc
      have hcontrib : dueContribution s.tick c = d := by
        rcases hd with hd | hd <;> simp [dueContribution, hd]
      rw [hcontrib] at hle
      omega

/-- C10 witness: the empty session yields `none`; a concrete non-empty
session yields a total result with a safe offset. -/
theorem get_cards_to_save_safety_witness :
    (({ snapshot := none, cards := [], tick := 0 } : Session).get_cards_to_save =
      none) ∧
    ∃ off saved,
      rtSession.save_offset = some off ∧
      rtSession.get_cards_to_save = some saved ∧
      ∀ c ∈ rtSession.cards, ∀ d : Nat,
        (c.status = Status.Learning d ∨ c.status = Status.Learned d) → off ≤ d :=
  ⟨(get_cards_to_save_safety { snapshot := none, cards := [], tick := 0 }).1 rfl,
    (get_cards_to_save_safety rtSession).2 (by decide)⟩

/-! Lemmas for the save/load round trip. -/

theorem overlay_eq_map :
    ∀ (l : List Card) (m : Factors → Option Card),
      (l.map Card.value).Nodup →
      overlayCards l m = l.map (fun c => (m c.value).getD c)
  | [], _, _ => rfl
  | c :: cs, m, h => by
      rw [List.map_cons] at h
      obtain ⟨hni, hnd⟩ := List.nodup_cons.mp h
      rw [overlayCards, List.map_cons]
      cases hmc : m c.value with
      | some changed =>
          have htail : cs.map (fun d => (removeKey m c.value d.value).getD d) =
              cs.map (fun d => (m d.value).getD d) :=
            List.map_congr_left (fun d hd => by
              unfold removeKey
              have hdc : d.value ≠ c.value := by
                intro e
                exact hni (e ▸ List.mem_map_of_mem Card.value hd)
              rw [if_neg hdc])
          rw [overlay_eq_map cs (removeKey m c.value) hnd, htail]
          rfl
      | none =>
          rw [overlay_eq_map cs m hnd]
          rfl

theorem buildMap_eq_some_of_mem {changes : List Card} {c : Card}
    (hN : (changes.map Card.value).Nodup) (hc : c ∈ changes) :
    buildMap changes c.value = some c := by
  unfold buildMap
  cases hf : changes.reverse.find? (fun d => d.value == c.value) with
  | none =>
      rw [List.find?_eq_none] at hf
      exact absurd (by simp : (c.value == c.value) = true)
        (hf c (List.mem_reverse.mpr hc))
  | some d =>
      have hdmem : d ∈ changes := List.mem_reverse.mp (List.mem_of_find?_eq_some hf)
      have hdv : d.value = c.value := by simpa using List.find?_some hf
      rw [List.inj_on_of_nodup_map hN hdmem hc hdv]

theorem buildMap_eq_none_of_not_mem {changes : List Card} {k : Factors}
    (h : ∀ d ∈ changes, d.value ≠ k) : buildMap changes k = none := by
  unfold buildMap
  rw [List.find?_eq_none]
  intro d hd hbeq
  exact h d (List.mem_reverse.mp hd) (beq_iff_eq.mp hbeq)

/-- C3: loading the saved cards onto a fresh all-Unseen universe that
covers the session's identities reproduces every scheduled card's status
variant and interval, with dues uniformly shifted down by the offset
min(tick, least scheduled due); fresh cards outside the saved set stay
Unseen and untouched. -/
theorem save_load_round_trip
    (s : Session) (fresh : List Card)
    (hne : s.cards ≠ [])
    (hsN : (s.cards.map Card.value).Nodup)
    (hfreshU : ∀ c ∈ fresh, c.status = Status.Unseen)
    (hfreshN : (fresh.map Card.value).Nodup)
    (hcover : ∀ c ∈ s.cards, c.status ≠ Status.Unseen →
      c.value ∈ fresh.map Card.value) :
    ∃ off saved,
      s.save_offset = some off ∧
      s.get_cards_to_save = some saved ∧
      (∀ m : Nat,
        ((s.cards.filter (fun card => card.status != Status.Unseen)).map
            dueValue).min? = some m →
        off = min s.tick m) ∧
      (∀ c ∈ s.cards, c.status ≠ Status.Unseen →
        ∃ c' ∈ (Session.apply_changes
            { snapshot := none, cards := fresh, tick := 0 } saved).cards,
          c'.value = c.value ∧ c'.interval = c.interval ∧
          c'.status = c.status.map_due (fun due => due - off)) ∧
      (∀ c ∈ fresh, c.value ∉ saved.map Card.value →
        c ∈ (Session.apply_changes
            { snapshot := none, cards := fresh, tick := 0 } saved).cards ∧
        c.status = Status.Unseen) := by
  have hminne : (s.cards.map (dueContribution s.tick)).min? ≠ none :=
    fun hcontra =>
      hne (by simpa [List.map_eq_nil_iff] using List.min?_eq_none_iff.mp hcontra)
  obtain ⟨m0, hm0⟩ := Option.ne_none_iff_exists'.mp hminne
  obtain ⟨hm0mem, hm0le⟩ := List.min?_eq_some_iff'.mp hm0
  refine ⟨min m0 s.tick,
    (s.cards.filter (fun card => card.status != Status.Unseen)).map
      (fun card =>
        { card with
            status := card.status.map_due (fun due => due - min m0 s.tick) }),
    ?_, ?_, ?_, ?_, ?_⟩
  · unfold Session.save_offset
    rw [hm0]
    rfl
  · unfold Session.get_cards_to_save Session.save_offset
    rw [hm0]
    rfl
  · intro m hm
    obtain ⟨hmmem, hmle⟩ := List.min?_eq_some_iff'.mp hm
    -- m is the due of some scheduled card, hence one of the contributions
    obtain ⟨c, hcmem, hcdue⟩ := List.mem_map.mp hmmem
    have hcS : c ∈ s.cards := (List.mem_filter.mp hcmem).1
    have hcNU : c.status ≠ Status.Unseen :=
      bne_iff_ne.mp (List.mem_filter.mp hcmem).2
    have h1 : m0 ≤ m := by
      have : dueContribution s.tick c ∈ s.cards.map (dueContribution s.tick) :=
        List.mem_map_of_mem _ hcS
      have := hm0le _ this
      rw [dueContribution_of_scheduled hcNU, hcdue] at this
      exact this
    -- m0 is itself a contribution: either a scheduled due (≥ m) or the tick
    have h2 : m ≤ m0 ∨ m0 = s.tick := by
      obtain ⟨c0, hc0S, hc0⟩ := List.mem_map.mp hm0mem
      by_cases hc0U : c0.status = Status.Unseen
      · right
        rw [← hc0]
        simp [dueContribution, hc0U]
      · left
        have hc0F : c0 ∈ s.cards.filter (fun card => card.status != Status.Unseen) :=
          List.mem_filter.mpr ⟨hc0S, bne_iff_ne.mpr hc0U⟩
        have : dueValue c0 ∈
            (s.cards.filter (fun card => card.status != Status.Unseen)).map dueValue :=
          List.mem_map_of_mem _ hc0F
        have := hmle _ this
        rw [← dueContribution_of_scheduled hc0U, hc0] at this
        exact this
    omega
  · intro c hcS hcNU
    have hcF : c ∈ s.cards.filter (fun card => card.status != Status.Unseen) :=
      List.mem_filter.mpr ⟨hcS, bne_iff_ne.mpr hcNU⟩
    have hsavedN :
        (((s.cards.filter (fun card => card.status != Status.Unseen)).map
          (fun card =>
            { card with
                status := card.status.map_due (fun due => due - min m0 s.tick) })).map
          Card.value).Nodup := by
      rw [List.map_map]
      exact ((List.filter_sublist _).map Card.value).nodup hsN
    have hmemS : (⟨c.value, c.interval,
        c.status.map_due (fun due => due - min m0 s.tick),
        c.last_result, c.last_seen⟩ : Card) ∈
        (s.cards.filter (fun card => card.status != Status.Unseen)).map
          (fun card =>
            { card with
                status := card.status.map_due (fun due => due - min m0 s.tick) }) :=
      List.mem_map_of_mem _ hcF
    have hbm := buildMap_eq_some_of_mem hsavedN hmemS
    obtain ⟨f, hfmem, hfv⟩ := List.mem_map.mp (hcover c hcS hcNU)
    refine ⟨⟨c.value, c.interval,
      c.status.map_due (fun due => due - min m0 s.tick),
      c.last_result, c.last_seen⟩, ?_, rfl, rfl, rfl⟩
    show _ ∈ (Session.rebuild _).cards
    rw [mem_rebuild]
    show _ ∈ overlayCards fresh _
    rw [overlay_eq_map fresh _ hfreshN]
    refine List.mem_map.mpr ⟨f, hfmem, ?_⟩
    rw [hfv, hbm]
    rfl
  · intro c hcf hnot
    have hbm : buildMap
        ((s.cards.filter (fun card => card.status != Status.Unseen)).map
          (fun card =>
            { card with
                status := card.status.map_due (fun due => due - min m0 s.tick) }))
        c.value = none :=
      buildMap_eq_none_of_not_mem
        (fun d hd e => hnot (e ▸ List.mem_map_of_mem Card.value hd))
    refine ⟨?_, hfreshU c hcf⟩
    show _ ∈ (Session.rebuild _).cards
    rw [mem_rebuild]
    show _ ∈ overlayCards fresh _
    rw [overlay_eq_map fresh _ hfreshN]
    refine List.mem_map.mpr ⟨c, hcf, ?_⟩
    rw [hbm]
    rfl

/-- C3 witness: one scheduled card and one Unseen card at tick 2, reloaded
onto a fresh two-card universe. -/
theorem save_load_round_trip_witness :
    ∃ off saved,
      rtSession.save_offset = some off ∧
      rtSession.get_cards_to_save = some saved ∧
      (∀ m : Nat,
        ((rtSession.cards.filter (fun card => card.status != Status.Unseen)).map
            dueValue).min? = some m →
        off = min rtSession.tick m) ∧
      (∀ c ∈ rtSession.cards, c.status ≠ Status.Unseen →
        ∃ c' ∈ (Session.apply_changes
            { snapshot := none, cards := rtFresh, tick := 0 } saved).cards,
          c'.value = c.value ∧ c'.interval = c.interval ∧
          c'.status = c.status.map_due (fun due => due - off)) ∧
      (∀ c ∈ rtFresh, c.value ∉ saved.map Card.value →
        c ∈ (Session.apply_changes
            { snapshot := none, cards := rtFresh, tick := 0 } saved).cards ∧
        c.status = Status.Unseen) :=
  save_load_round_trip rtSession rtFresh (by decide) (by decide) (by decide)
    (by decide) (by decide)
